import Mathlib

/-!
Verification of the Discussion Orchestration Engine of
`agents/panel_discussion_strands_v2.py`.

The Python code is shallowly embedded: strings are Lean `String`s, but all
string manipulation is done on the underlying `List Char` by executable
functions mirroring the Python string methods (`.lower()`, `.strip()`,
`.split(sep)`, `.split(':', 1)[1]`, substring tests with `in`,
`.startswith`), because the corresponding Lean `String` library functions do
not reduce inside the kernel.  Python `float` values (confidences, scores)
are embedded as exact rationals `ℚ`.  Python exceptions are embedded with
`Except`/`Option`: a function that can raise returns `Except σ α` where the
error carries the state observable at the raise point.

The opaque LLM completion capability (`strands.Agent.__call__`) is embedded
as an environment `env : ℕ → String` giving the text of the n-th completion
call of a run; the engine never inspects the prompts it sends, only the
responses, so a run of the real system with any prompt-dependent completion
behaviour corresponds to the run with the response stream that behaviour
produced.
-/

/-- Python `str.lower()` on one character (ASCII case mapping). -/
def lowChar (c : Char) : Char :=
  if 65 ≤ c.toNat ∧ c.toNat ≤ 90 then Char.ofNat (c.toNat + 32) else c

/-- Python `str.lower()`. -/
def toLowerL (l : List Char) : List Char := l.map lowChar

/-- Python `str.strip()` whitespace set (space, tab, newline, CR, VT, FF). -/
def pySpace (c : Char) : Bool :=
  c = ' ' || c = '\t' || c = '\n' || c = '\r' || c.toNat = 11 || c.toNat = 12

/-- Python `str.strip()`. -/
def trimL (l : List Char) : List Char :=
  ((l.dropWhile pySpace).reverse.dropWhile pySpace).reverse

/-- Python `str.split(sep)` for a one-character separator. -/
def splitChar (sep : Char) : List Char → List (List Char)
  | [] => [[]]
  | c :: cs =>
    let r := splitChar sep cs
    if c = sep then [] :: r
    else
      match r with
      | [] => [[c]]
      | h :: t => (c :: h) :: t

/-- Python substring test `needle in hay`. -/
def isSubL (needle : List Char) : List Char → Bool
  | [] => needle.isEmpty
  | c :: t => needle.isPrefixOf (c :: t) || isSubL needle t

/-- Python `line.split(':', 1)[1]`: everything after the first colon.
All call sites in the source are guarded by a `startswith` check that
guarantees the colon exists; with no colon this returns `[]`. -/
def afterColonL (l : List Char) : List Char :=
  ((l.dropWhile (fun c => c != ':')).drop 1)

/-- Value of a decimal digit string (digits only). -/
def digitsToNat (l : List Char) : ℕ := l.foldl (fun n c => 10 * n + (c.toNat - 48)) 0

/-- Python `float(s)` for a string `s` made of digits and periods only
(the shape produced by the `Confidence:` filter in `_parse_vote`):
it succeeds iff `s` has at least one digit and at most one period,
raising `ValueError` (here: `none`) otherwise. -/
def parseFloatQ (s : List Char) : Option ℚ :=
  if (s.count '.' ≤ 1) ∧ s.any Char.isDigit then
    match splitChar '.' s with
    | [intPart] => some (digitsToNat intPart : ℚ)
    | [intPart, fracPart] =>
        some ((digitsToNat intPart : ℚ) + (digitsToNat fracPart : ℚ) / 10 ^ fracPart.length)
    | _ => none
  else none

/-! ## Data model (the `@dataclass`es of the source) -/

/-- `ExpertAnalysis`: expert analysis for a specific round. -/
structure ExpertAnalysis where
  expert_role : String
  analysis_text : String
  round_number : ℕ
deriving Repr, DecidableEq

/-- `Vote`: individual expert vote.  `vote_mood` is one of the strings
`"happy"`, `"neutral"`, `"sad"`; `confidence` is a float in `[0,1]`. -/
structure Vote where
  expert_role : String
  vote_mood : String
  confidence : ℚ
  reasoning : String
deriving Repr, DecidableEq

/-- `Transcript`: one conversation turn. -/
structure Transcript where
  speaker : String
  content : String
  round_number : Option ℕ
  turn_order : ℕ
deriving Repr, DecidableEq

/-- `PanelResult`: complete panel discussion result. -/
structure PanelResult where
  country_code : String
  topic : String
  final_mood : String
  final_score : ℚ
  introduction : String
  conclusion : String
  discussion_date : String
  total_turns : ℕ
  debate_rounds : ℕ
  analyses : List ExpertAnalysis
  votes : List Vote
  transcripts : List Transcript
deriving Repr, DecidableEq

/-! ## `ExpertAgent.respond` -/

/-- `ExpertAgent.respond`: one call of the underlying completion capability.
`outcome` is the behaviour of `self.agent(prompt)`: `.ok text` for a normal
completion (already coerced to a string, as the source does with `str`),
`.error e` when it raises.  On an exception the source logs it and returns
the sentinel `f"[Error from {self.role}]"`. -/
def respond (role : String) (outcome : Except String String) : String :=
  match outcome with
  | .ok response => response
  | .error _ => "[Error from " ++ role ++ "]"

/-! ## `_parse_vote` -/

/-- The mutable locals `mood`, `confidence`, `reasoning` of `_parse_vote`
while scanning the lines of the response. -/
structure VoteAcc where
  mood : String
  conf : ℚ
  reasoning : String
deriving Repr, DecidableEq

/-- Initial values in `_parse_vote`: `mood = 'neutral'`, `confidence = 0.50`,
`reasoning = ""`. -/
def parseVoteInit : VoteAcc := { mood := "neutral", conf := 1/2, reasoning := "" }

/-- Test `line.lower().strip().startswith('vote:')`. -/
def isVoteLine (line : List Char) : Bool :=
  "vote:".data.isPrefixOf (trimL (toLowerL line))

/-- Test `line.lower().strip().startswith('confidence:')`. -/
def isConfLine (line : List Char) : Bool :=
  "confidence:".data.isPrefixOf (trimL (toLowerL line))

/-- Test `line.lower().strip().startswith('reasoning:')`. -/
def isReasonLine (line : List Char) : Bool :=
  "reasoning:".data.isPrefixOf (trimL (toLowerL line))

/-- The mood branch of `_parse_vote` applied to
`mood_text = line.split(':', 1)[1].strip().lower()`. -/
def moodOfValue (mood_text : List Char) : String :=
  if isSubL "happy".data mood_text then "happy"
  else if isSubL "sad".data mood_text then "sad"
  else "neutral"

/-- `conf_text` after the filter `''.join(c for c in conf_text if c.isdigit() or c == '.')`. -/
def confFiltered (line : List Char) : List Char :=
  (trimL (afterColonL line)).filter (fun c => c.isDigit || c == '.')

/-- One iteration of the line loop in `_parse_vote`.  The only statement in
the `try` block that can raise is the `float(...)` conversion on a
`Confidence:` line; `.error acc` is the state at that raise. -/
def parseVoteLine (acc : VoteAcc) (line : List Char) : Except VoteAcc VoteAcc :=
  if isVoteLine line then
    Except.ok { acc with mood := moodOfValue (toLowerL (trimL (afterColonL line))) }
  else if isConfLine line then
    match parseFloatQ (confFiltered line) with
    | none => Except.error acc
    | some conf_num => Except.ok { acc with conf := min 100 (max 0 conf_num) / 100 }
  else if isReasonLine line then
    Except.ok { acc with reasoning := String.mk (trimL (afterColonL line)) }
  else
    Except.ok acc

/-- The line loop of `_parse_vote`: an exception aborts the remaining lines. -/
def parseVoteFold (acc : VoteAcc) : List (List Char) → Except VoteAcc VoteAcc
  | [] => Except.ok acc
  | line :: rest =>
    match parseVoteLine acc line with
    | Except.ok acc' => parseVoteFold acc' rest
    | Except.error e => Except.error e

/-- `_parse_vote(role, response)`.  In the `except` branch the source sets
`reasoning = response`; the final `Vote` uses
`reasoning if reasoning else response`. -/
def parseVote (role response : String) : Vote :=
  match parseVoteFold parseVoteInit (splitChar '\n' response.data) with
  | Except.ok acc =>
      { expert_role := role, vote_mood := acc.mood, confidence := acc.conf,
        reasoning := if acc.reasoning = "" then response else acc.reasoning }
  | Except.error acc =>
      { expert_role := role, vote_mood := acc.mood, confidence := acc.conf,
        reasoning := response }

/-! ## The routing parse in `_moderator_decide_followup` -/

/-- The mutable locals `should_continue`, `target_experts` of
`_moderator_decide_followup`. -/
structure RoutingAcc where
  should_continue : Bool
  target_experts : List String
deriving Repr, DecidableEq

/-- Test `line.lower().strip().startswith('continue:')`. -/
def isContinueLine (line : List Char) : Bool :=
  "continue:".data.isPrefixOf (trimL (toLowerL line))

/-- Test `line.lower().strip().startswith('target experts:')`. -/
def isTargetLine (line : List Char) : Bool :=
  "target experts:".data.isPrefixOf (trimL (toLowerL line))

/-- `mentioned.lower() in expert.lower() or expert.lower() in mentioned.lower()`. -/
def bidirMatch (expert : String) (mentioned : List Char) : Bool :=
  isSubL (toLowerL mentioned) (toLowerL expert.data) ||
    isSubL (toLowerL expert.data) (toLowerL mentioned)

/-- The nested `for expert in self.expert_roles: for mentioned in
mentioned_experts: ...` loops: an expert is appended (once) when some
mentioned token matches it bidirectionally. -/
def matchMentioned (roster : List String) (mentioned_experts : List (List Char))
    (targets : List String) : List String :=
  match roster with
  | [] => targets
  | expert :: rest =>
    let targets' :=
      if mentioned_experts.any (fun m => bidirMatch expert m) then
        if targets.contains expert then targets else targets ++ [expert]
      else targets
    matchMentioned rest mentioned_experts targets'

/-- One iteration of the line loop in `_moderator_decide_followup`. -/
def parseFollowupLine (roster : List String) (acc : RoutingAcc) (line : List Char) :
    RoutingAcc :=
  if isContinueLine line then
    { acc with should_continue := isSubL "yes".data (toLowerL (trimL (afterColonL line))) }
  else if isTargetLine line then
    let experts_text := trimL (afterColonL line)
    if isSubL "none".data (toLowerL experts_text) then
      { should_continue := false, target_experts := [] }
    else if isSubL "all".data (toLowerL experts_text) then
      { acc with target_experts := roster }
    else
      let mentioned_experts := (splitChar ',' experts_text).map trimL
      { acc with target_experts := matchMentioned roster mentioned_experts acc.target_experts }
  else acc

/-- The routing parse of `_moderator_decide_followup` (initial values
`should_continue = False`, `target_experts = []`).  Every statement of its
`try` block is total on strings, so the `except` fallback path of the source
is unreachable and not part of the embedding. -/
def parseFollowup (roster : List String) (response : String) : Bool × List String :=
  let acc := (splitChar '\n' response.data).foldl (parseFollowupLine roster) ⟨false, []⟩
  (acc.should_continue, acc.target_experts)

/-! ## `_calculate_final_mood` -/

/-- The dict `mood_values = {'happy': 100, 'neutral': 50, 'sad': 0}`;
`none` models the `KeyError` of `mood_values[vote.vote_mood]` for any other
mood string. -/
def moodValues : String → Option ℚ
  | "happy" => some 100
  | "neutral" => some 50
  | "sad" => some 0
  | _ => none

/-- One iteration of the accumulation loop of `_calculate_final_mood`:
`total_score += mood_value * confidence; total_weight += confidence`;
`none` models the propagated `KeyError`. -/
def voteStep (acc : Option (ℚ × ℚ)) (vote : Vote) : Option (ℚ × ℚ) :=
  match acc, moodValues vote.vote_mood with
  | some (total_score, total_weight), some mood_value =>
      some (total_score + mood_value * vote.confidence, total_weight + vote.confidence)
  | _, _ => none

/-- The accumulation loop of `_calculate_final_mood`, starting from
`total_score = 0`, `total_weight = 0`. -/
def voteTotals (votes : List Vote) : Option (ℚ × ℚ) :=
  votes.foldl voteStep (some (0, 0))

/-- `_calculate_final_mood(votes)`. -/
def calculateFinalMood (votes : List Vote) : Option (String × ℚ) :=
  match voteTotals votes with
  | none => none
  | some (total_score, total_weight) =>
    if total_weight = 0 then some ("neutral", 50)
    else
      let final_score := total_score / total_weight
      if final_score ≥ 67 then some ("happy", final_score)
      else if final_score ≥ 34 then some ("neutral", final_score)
      else some ("sad", final_score)

/-! ## Orchestration state (`PanelDiscussionStrandsV2`) -/

/-- The hard-coded roster `self.expert_roles` from `__init__`. -/
def expert_roles : List String :=
  ["Economic Analyst", "Social Welfare Specialist", "Environmental Scientist"]

/-- The mutable per-run state of the orchestrator: `self.transcripts`,
`self.analyses`, `self.turn_order`, plus the index of the next completion
call (which selects the next response from the environment). -/
structure PanelState where
  transcripts : List Transcript
  analyses : List ExpertAnalysis
  turn_order : ℕ
  calls : ℕ
deriving Repr, DecidableEq

/-- One successful call of an agent (`self.agents[...].respond(prompt)`):
returns the response text of the environment and advances the call index. -/
def askAgent (env : ℕ → String) (st : PanelState) : String × PanelState :=
  (env st.calls, { st with calls := st.calls + 1 })

/-- `_add_transcript`: increments `self.turn_order` and appends a
`Transcript` carrying the new value; the caller never supplies the order. -/
def addTranscript (st : PanelState) (speaker content : String)
    (round_number : Option ℕ) : PanelState :=
  { st with
    turn_order := st.turn_order + 1,
    transcripts := st.transcripts ++
      [{ speaker := speaker, content := content, round_number := round_number,
         turn_order := st.turn_order + 1 }] }

/-- `_moderator_introduce`: one moderator completion, appended as a phase
turn (`round_number = None`). -/
def moderatorIntroduce (env : ℕ → String) (st : PanelState) : String × PanelState :=
  let (introduction, st) := askAgent env st
  (introduction, addTranscript st "Moderator" introduction none)

/-- The `for i, role in enumerate(self.expert_roles)` loop shared by
`_collect_round_analyses` and `_conduct_dynamic_debate_round`: each listed
expert produces one completion, appended to `self.analyses` and then to the
transcript with the current round number. -/
def expertAnalysisPass (env : ℕ → String) (round_number : ℕ) :
    List String → PanelState → PanelState
  | [], st => st
  | role :: rest, st =>
    let (analysis_text, st) := askAgent env st
    let st := { st with
      analyses := st.analyses ++
        [{ expert_role := role, analysis_text := analysis_text, round_number := round_number }] }
    let st := addTranscript st role analysis_text (some round_number)
    expertAnalysisPass env round_number rest st

/-- `_collect_round_analyses`.  In the `is_first` branch the moderator
question interpolates `self.expert_roles[0]`, which raises `IndexError` on
an empty roster (`.error` carries the state at that point); otherwise the
question is a fixed string.  Then every roster expert answers. -/
def collectRoundAnalyses (env : ℕ → String) (roster : List String)
    (country_code : String) (round_number : ℕ) (is_first : Bool) (st : PanelState) :
    Except PanelState PanelState :=
  if is_first then
    match roster.head? with
    | none => Except.error st
    | some firstRole =>
      let moderator_q := "Let's begin with our expert analyses. " ++ firstRole ++
        ", what's your assessment of " ++ country_code ++ "'s situation?"
      let st := addTranscript st "Moderator" moderator_q (some round_number)
      Except.ok (expertAnalysisPass env round_number roster st)
  else
    let moderator_q := "Let's continue our analysis. What are your updated perspectives based on our discussion?"
    let st := addTranscript st "Moderator" moderator_q (some round_number)
    Except.ok (expertAnalysisPass env round_number roster st)

/-- `_moderator_decide_followup`: one moderator completion, parsed by the
routing decoder.  It does not touch the transcript. -/
def moderatorDecideFollowup (env : ℕ → String) (roster : List String)
    (st : PanelState) : (Bool × List String) × PanelState :=
  let (response, st) := askAgent env st
  (parseFollowup roster response, st)

/-- Line 418 of the source: `if not target_experts: target_experts =
self.expert_roles.copy()`. -/
def roundTargets (roster target_experts : List String) : List String :=
  if target_experts.isEmpty then roster else target_experts

/-- `_conduct_dynamic_debate_round`: an empty target list is replaced by the
full roster; the moderator poses one question (a transcript turn tagged with
the round), then each targeted expert answers as in an analysis round. -/
def conductDynamicDebateRound (env : ℕ → String) (roster : List String)
    (round_number : ℕ) (target_experts : List String) (st : PanelState) : PanelState :=
  let targets := roundTargets roster target_experts
  let (moderator_question, st) := askAgent env st
  let st := addTranscript st "Moderator" moderator_question (some round_number)
  expertAnalysisPass env round_number targets st

/-- The `while round_num <= max_rounds` loop of `start_discussion`,
with `fuel = max_rounds - 1` remaining iterations (the loop starts at
`round_num = 2`).  Returns the state and the final value of `round_num`. -/
def debateLoop (env : ℕ → String) (roster : List String) :
    ℕ → ℕ → PanelState → PanelState × ℕ
  | round_num, 0, st => (st, round_num)
  | round_num, fuel + 1, st =>
    let (decision, st) := moderatorDecideFollowup env roster st
    if decision.1 then
      let st := conductDynamicDebateRound env roster round_num decision.2 st
      debateLoop env roster (round_num + 1) fuel st
    else (st, round_num)

/-- The `for role in self.expert_roles` voting loop of `_conduct_voting`. -/
def votingPass (env : ℕ → String) :
    List String → List Vote × PanelState → List Vote × PanelState
  | [], acc => acc
  | role :: rest, (votes, st) =>
    let (response, st) := askAgent env st
    let vote := parseVote role response
    let vote_statement := "I vote " ++ vote.vote_mood ++ " with " ++
      toString ⌊vote.confidence * 100⌋ ++ "% confidence. " ++ vote.reasoning
    let st := addTranscript st role vote_statement none
    votingPass env rest (votes ++ [vote], st)

/-- `_conduct_voting`: the moderator call for votes is a phase turn, then
every roster expert votes; each parsed vote is echoed into the transcript as
a phase turn (`int(vote.confidence * 100)` truncates the percentage). -/
def conductVoting (env : ℕ → String) (roster : List String) (st : PanelState) :
    List Vote × PanelState :=
  let st := addTranscript st "Moderator"
    "Let's move to our final assessments. I'd like each expert to cast their vote on the overall outlook." none
  votingPass env roster ([], st)

/-- `_moderator_conclude`: one moderator completion, appended as a phase turn. -/
def moderatorConclude (env : ℕ → String) (st : PanelState) : String × PanelState :=
  let (conclusion, st) := askAgent env st
  (conclusion, addTranscript st "Moderator" conclusion none)

/-- `start_discussion`: reset, introduction, first analysis round, dynamic
debate loop, voting, scoring, conclusion, result assembly.  `today` is the
value of `date.today().isoformat()`.  `.error` carries the orchestrator
state at an uncaught exception (empty-roster `IndexError` in phase 2, or the
`KeyError` of `_calculate_final_mood` — the latter is unreachable because
`_parse_vote` only emits the three known moods).  The source performs no
validation of `max_rounds` or the roster before running the phases. -/
def startDiscussion (env : ℕ → String) (roster : List String)
    (country_code topic today : String) (max_rounds : ℕ) :
    Except PanelState PanelResult :=
  let st0 : PanelState := { transcripts := [], analyses := [], turn_order := 0, calls := 0 }
  let intro := moderatorIntroduce env st0
  let introduction := intro.1
  match collectRoundAnalyses env roster country_code 1 true intro.2 with
  | Except.error st => Except.error st
  | Except.ok st =>
    let loop := debateLoop env roster 2 (max_rounds - 1) st
    let actual_rounds := loop.2 - 1
    let voting := conductVoting env roster loop.1
    let votes := voting.1
    match calculateFinalMood votes with
    | none => Except.error voting.2
    | some fm =>
      let concl := moderatorConclude env voting.2
      Except.ok {
        country_code := country_code, topic := topic,
        final_mood := fm.1, final_score := fm.2,
        introduction := introduction, conclusion := concl.1,
        discussion_date := today,
        total_turns := concl.2.transcripts.length,
        debate_rounds := actual_rounds,
        analyses := concl.2.analyses, votes := votes, transcripts := concl.2.transcripts }

/-- A concrete environment in which every completion call returns the empty
string. -/
def env0 : ℕ → String := fun _ => ""

/-! ## Specification-side definitions used by the theorem statements -/

/-- The state variables carried out of the line loop of `_parse_vote`,
whether it finished normally or was aborted by an exception. -/
def accOf : Except VoteAcc VoteAcc → VoteAcc
  | .ok a => a
  | .error a => a

/-- The three mood strings `_parse_vote` can produce. -/
def MoodOk (m : String) : Prop := m = "happy" ∨ m = "neutral" ∨ m = "sad"

/-- The mood named by the last `Vote:`-labelled line of a response (searched
as the first such line of the reversed line list), defaulting to
`"neutral"` when no line carries the label. -/
def lastVoteMood (lines : List (List Char)) : String :=
  match lines.reverse.find? isVoteLine with
  | some l => moodOfValue (toLowerL (trimL (afterColonL l)))
  | none => "neutral"

/-- The numeric anchor of a mood as stated by the specification:
happy = 100, neutral = 50, sad = 0. -/
def anchor (m : String) : ℚ :=
  if m = "happy" then 100 else if m = "neutral" then 50 else 0

/-- `Σ (anchor × confidence)` over a vote list. -/
def sumWeighted (votes : List Vote) : ℚ :=
  (votes.map (fun v => anchor v.vote_mood * v.confidence)).sum

/-- `Σ confidence` over a vote list. -/
def sumConf (votes : List Vote) : ℚ :=
  (votes.map Vote.confidence).sum

/-- The transcript bookkeeping invariant of the orchestrator state: the
recorded turn orders are exactly `1, 2, ..., n` in positional order, and the
turn counter equals the number of recorded turns. -/
def TranscriptInv (st : PanelState) : Prop :=
  st.transcripts.map Transcript.turn_order = List.range' 1 st.transcripts.length ∧
    st.turn_order = st.transcripts.length

/-- `st'` extends `st` by appending transcript turns (no existing turn is
modified or removed). -/
def ExtendsT (st st' : PanelState) : Prop :=
  ∃ new, st'.transcripts = st.transcripts ++ new

/-! ## String-level lemmas -/

lemma isPrefixOf_append_self (n post : List Char) : n.isPrefixOf (n ++ post) = true := by
  induction n with
  | nil => simp [List.isPrefixOf]
  | cons c t ih =>
    show (c :: t).isPrefixOf (c :: (t ++ post)) = true
    simp [List.isPrefixOf, ih]

lemma isSubL_nil (l : List Char) : isSubL [] l = true := by
  cases l <;> simp [isSubL, List.isPrefixOf]

lemma isSubL_append_self (n pre post : List Char) : isSubL n (pre ++ (n ++ post)) = true := by
  induction pre with
  | nil =>
    cases n with
    | nil => exact isSubL_nil post
    | cons a t =>
      show isSubL (a :: t) (a :: (t ++ post)) = true
      unfold isSubL
      rw [show a :: (t ++ post) = (a :: t) ++ post from rfl, isPrefixOf_append_self]
      rfl
  | cons c pre' ih =>
    show (n.isPrefixOf (c :: (pre' ++ (n ++ post))) || isSubL n (pre' ++ (n ++ post))) = true
    rw [ih, Bool.or_true]

lemma head_of_cons_isPrefixOf (c : Char) (cs l : List Char)
    (h : (c :: cs).isPrefixOf l = true) : ∃ t, l = c :: t := by
  cases l with
  | nil => simp [List.isPrefixOf] at h
  | cons x xs =>
    refine ⟨xs, ?_⟩
    have : (c == x) = true := by
      by_contra hne
      simp [List.isPrefixOf, Bool.eq_false_iff.mpr hne] at h
    rw [beq_iff_eq] at this
    rw [this]

/-! ## C9: respondent failure isolation -/

/-- C9: for every prompt outcome, when the underlying completion capability
raises, `ExpertAgent.respond` does not propagate the failure: it returns the
sentinel `"[Error from <role>]"`, which contains the failing role as a
substring, and on a normal completion it returns the completion text. -/
theorem C9_respond_isolates_failure (role err : String) :
    respond role (Except.error err) = "[Error from " ++ role ++ "]" ∧
    isSubL role.data (respond role (Except.error err)).data = true ∧
    (∀ text, respond role (Except.ok text) = text) := by
  refine ⟨rfl, ?_, fun _ => rfl⟩
  show isSubL role.data (("[Error from " ++ role ++ "]") : String).data = true
  have hd : (("[Error from " ++ role ++ "]") : String).data =
      "[Error from ".data ++ (role.data ++ "]".data) := rfl
  rw [hd]
  exact isSubL_append_self role.data "[Error from ".data "]".data

/-! ## C10: empty routing target set means the full roster -/

lemma expertAnalysisPass_analyses_roles (env : ℕ → String) (round_number : ℕ) :
    ∀ (roster : List String) (st : PanelState),
      (expertAnalysisPass env round_number roster st).analyses.map ExpertAnalysis.expert_role =
        st.analyses.map ExpertAnalysis.expert_role ++ roster
  | [], st => by simp [expertAnalysisPass]
  | role :: rest, st => by
    simp [expertAnalysisPass, askAgent, addTranscript,
      expertAnalysisPass_analyses_roles env round_number rest]

/-- C10: when a debate round is conducted with an empty target list, the
round is not skipped: `_conduct_dynamic_debate_round` silently replaces the
empty list with the full roster, behaves exactly as if every respondent had
been targeted, and one analysis per roster member (in roster order) is
produced. -/
theorem C10_empty_targets_means_all (env : ℕ → String) (roster : List String)
    (round_number : ℕ) (st : PanelState) :
    roundTargets roster [] = roster ∧
    (∀ t ts, roundTargets roster (t :: ts) = t :: ts) ∧
    conductDynamicDebateRound env roster round_number [] st =
      conductDynamicDebateRound env roster round_number roster st ∧
    (conductDynamicDebateRound env roster round_number [] st).analyses.map
        ExpertAnalysis.expert_role =
      st.analyses.map ExpertAnalysis.expert_role ++ roster := by
  have htgt : roundTargets roster roster = roster := by
    unfold roundTargets
    cases roster <;> simp
  refine ⟨rfl, fun t ts => rfl, ?_, ?_⟩
  · unfold conductDynamicDebateRound
    rw [htgt]
    rfl
  · unfold conductDynamicDebateRound
    show (expertAnalysisPass env round_number (roundTargets roster []) _).analyses.map _ = _
    rw [expertAnalysisPass_analyses_roles]
    simp [addTranscript, askAgent, roundTargets]

/-! ## `_parse_vote` lemmas -/

lemma parseVoteLine_vote (acc : VoteAcc) (line : List Char) (h : isVoteLine line = true) :
    parseVoteLine acc line =
      Except.ok { acc with mood := moodOfValue (toLowerL (trimL (afterColonL line))) } := by
  unfold parseVoteLine
  simp [h]

lemma parseVoteLine_mood_keep (acc : VoteAcc) (line : List Char) (h : isVoteLine line = false) :
    (accOf (parseVoteLine acc line)).mood = acc.mood := by
  unfold parseVoteLine
  simp only [h, Bool.false_eq_true, if_false]
  by_cases hc : isConfLine line
  · simp only [hc, if_true]
    cases hp : parseFloatQ (confFiltered line) <;> simp [accOf]
  · simp only [hc, Bool.false_eq_true, if_false]
    by_cases hr : isReasonLine line <;> simp [hr, accOf]

lemma parseVoteFold_ok_mood :
    ∀ (lines : List (List Char)) (acc acc' : VoteAcc),
      parseVoteFold acc lines = Except.ok acc' →
      acc'.mood = (match lines.reverse.find? isVoteLine with
        | some l => moodOfValue (toLowerL (trimL (afterColonL l)))
        | none => acc.mood)
  | [], acc, acc', h => by
    simp only [parseVoteFold, Except.ok.injEq] at h
    simp [← h]
  | line :: rest, acc, acc', h => by
    rw [List.reverse_cons, List.find?_append]
    cases hline : parseVoteLine acc line with
    | error e =>
      rw [parseVoteFold, hline] at h
      exact absurd h (by simp)
    | ok acc₁ =>
      rw [parseVoteFold, hline] at h
      have ih := parseVoteFold_ok_mood rest acc₁ acc' h
      cases hf : rest.reverse.find? isVoteLine with
      | some l =>
        rw [hf] at ih
        simp [hf, Option.or]
        exact ih
      | none =>
        rw [hf] at ih
        simp only [hf, Option.or]
        by_cases hv : isVoteLine line
        · simp only [List.find?, hv]
          have h1 := parseVoteLine_vote acc line hv
          rw [h1] at hline
          have : acc₁ = { acc with mood := moodOfValue (toLowerL (trimL (afterColonL line))) } :=
            (Except.ok.injEq _ _).mp hline.symm
          simp only [ih, this]
        · simp only [List.find?, Bool.of_not_eq_true hv]
          have h2 := parseVoteLine_mood_keep acc line (Bool.of_not_eq_true hv)
          rw [hline] at h2
          simp only [ih]
          exact h2

lemma moodOfValue_ok (v : List Char) : MoodOk (moodOfValue v) := by
  unfold moodOfValue MoodOk
  split_ifs <;> simp

lemma parseVoteLine_mood_ok (acc : VoteAcc) (line : List Char) (h : MoodOk acc.mood) :
    MoodOk ((accOf (parseVoteLine acc line)).mood) := by
  by_cases hv : isVoteLine line
  · rw [parseVoteLine_vote acc line hv]
    exact moodOfValue_ok _
  · rw [parseVoteLine_mood_keep acc line (Bool.of_not_eq_true hv)]
    exact h

lemma parseVoteFold_mood_ok :
    ∀ (lines : List (List Char)) (acc : VoteAcc), MoodOk acc.mood →
      MoodOk ((accOf (parseVoteFold acc lines)).mood)
  | [], acc, h => h
  | line :: rest, acc, h => by
    have hstep := parseVoteLine_mood_ok acc line h
    cases hline : parseVoteLine acc line with
    | error e =>
      rw [hline] at hstep
      rw [parseVoteFold, hline]
      exact hstep
    | ok acc₁ =>
      rw [hline] at hstep
      rw [parseVoteFold, hline]
      exact parseVoteFold_mood_ok rest acc₁ hstep

lemma parseVote_mood_ok (role response : String) : MoodOk (parseVote role response).vote_mood := by
  have h := parseVoteFold_mood_ok (splitChar '\n' response.data) parseVoteInit
    (Or.inr (Or.inl rfl))
  unfold parseVote
  cases hf : parseVoteFold parseVoteInit (splitChar '\n' response.data) with
  | ok acc => rw [hf] at h; exact h
  | error acc => rw [hf] at h; exact h

lemma confClampRange (q : ℚ) :
    0 ≤ min 100 (max 0 q) / 100 ∧ min 100 (max 0 q) / 100 ≤ 1 := by
  constructor
  · exact div_nonneg (le_min (by norm_num) (le_max_left 0 q)) (by norm_num)
  · rw [div_le_one (by norm_num : (0:ℚ) < 100)]
    exact min_le_left _ _

lemma parseVoteLine_conf_ok (acc : VoteAcc) (line : List Char)
    (h : 0 ≤ acc.conf ∧ acc.conf ≤ 1) :
    0 ≤ (accOf (parseVoteLine acc line)).conf ∧ (accOf (parseVoteLine acc line)).conf ≤ 1 := by
  unfold parseVoteLine
  by_cases hv : isVoteLine line
  · simpa [hv, accOf] using h
  · simp only [hv, Bool.false_eq_true, if_false]
    by_cases hc : isConfLine line
    · simp only [hc, if_true]
      cases hp : parseFloatQ (confFiltered line) with
      | none => simpa [accOf] using h
      | some q => simpa [accOf] using confClampRange q
    · simp only [hc, Bool.false_eq_true, if_false]
      by_cases hr : isReasonLine line <;> simpa [hr, accOf] using h

lemma parseVoteFold_conf_ok :
    ∀ (lines : List (List Char)) (acc : VoteAcc), 0 ≤ acc.conf ∧ acc.conf ≤ 1 →
      0 ≤ (accOf (parseVoteFold acc lines)).conf ∧ (accOf (parseVoteFold acc lines)).conf ≤ 1
  | [], acc, h => h
  | line :: rest, acc, h => by
    have hstep := parseVoteLine_conf_ok acc line h
    cases hline : parseVoteLine acc line with
    | error e =>
      rw [hline] at hstep
      rw [parseVoteFold, hline]
      exact hstep
    | ok acc₁ =>
      rw [hline] at hstep
      rw [parseVoteFold, hline]
      exact parseVoteFold_conf_ok rest acc₁ hstep

lemma parseVote_conf_range (role response : String) :
    0 ≤ (parseVote role response).confidence ∧ (parseVote role response).confidence ≤ 1 := by
  have h := parseVoteFold_conf_ok (splitChar '\n' response.data) parseVoteInit
    (by constructor <;> norm_num [parseVoteInit])
  unfold parseVote
  cases hf : parseVoteFold parseVoteInit (splitChar '\n' response.data) with
  | ok acc => rw [hf] at h; exact h
  | error acc => rw [hf] at h; exact h

lemma parseVoteLine_conf_keep (acc : VoteAcc) (line : List Char)
    (hc : isConfLine line = false) :
    ∃ acc₂, parseVoteLine acc line = Except.ok acc₂ ∧ acc₂.conf = acc.conf := by
  by_cases hv : isVoteLine line
  · exact ⟨{ acc with mood := moodOfValue (toLowerL (trimL (afterColonL line))) },
      parseVoteLine_vote acc line hv, rfl⟩
  · by_cases hr : isReasonLine line
    · refine ⟨{ acc with reasoning := String.mk (trimL (afterColonL line)) }, ?_, rfl⟩
      unfold parseVoteLine
      simp [hv, hc, hr]
    · refine ⟨acc, ?_, rfl⟩
      unfold parseVoteLine
      simp [hv, hc, hr]

lemma parseVoteLine_conf_error (acc : VoteAcc) (line : List Char)
    (hv : isVoteLine line = false) (hc : isConfLine line = true)
    (hp : parseFloatQ (confFiltered line) = none) :
    parseVoteLine acc line = Except.error acc := by
  unfold parseVoteLine
  simp [hv, hc, hp]

lemma parseVoteFold_conf_default :
    ∀ (lines : List (List Char)) (acc : VoteAcc),
      (∀ l ∈ lines, isConfLine l = true → parseFloatQ (confFiltered l) = none) →
      (accOf (parseVoteFold acc lines)).conf = acc.conf
  | [], acc, _ => rfl
  | line :: rest, acc, h => by
    by_cases hv : isVoteLine line
    · rw [parseVoteFold, parseVoteLine_vote acc line hv,
        parseVoteFold_conf_default rest _ (fun l hl => h l (by simp [hl]))]
    · by_cases hc : isConfLine line
      · have herr := parseVoteLine_conf_error acc line (Bool.of_not_eq_true hv) hc
          (h line (by simp) hc)
        rw [parseVoteFold, herr]
        rfl
      · obtain ⟨acc₂, he, hkeep⟩ := parseVoteLine_conf_keep acc line (Bool.of_not_eq_true hc)
        rw [parseVoteFold, he,
          parseVoteFold_conf_default rest acc₂ (fun l hl => h l (by simp [hl]))]
        exact hkeep

lemma isVoteLine_false_of_conf (line : List Char) (hc : isConfLine line = true) :
    isVoteLine line = false := by
  unfold isConfLine at hc
  obtain ⟨t, ht⟩ := head_of_cons_isPrefixOf 'c' "onfidence:".data (trimL (toLowerL line)) hc
  unfold isVoteLine
  rw [ht]
  show (('v' == 'c') && "ote:".data.isPrefixOf t) = false
  rfl

lemma parseVote_confidence_eq (role response : String) :
    (parseVote role response).confidence =
      (accOf (parseVoteFold parseVoteInit (splitChar '\n' response.data))).conf := by
  unfold parseVote
  cases hf : parseVoteFold parseVoteInit (splitChar '\n' response.data) <;> simp [hf, accOf]

/-- C5 (amended): the Vote Decoder determines the mood from the value of the
last line whose label matches `Vote:` case-insensitively (text after the
first colon), provided the line loop runs to completion (no exception from a
malformed `Confidence:` line cuts it short), by substring match in the fixed
order happy before sad: a value containing `happy` yields `"happy"` even if
it also contains `sad`; a value containing `sad` but not `happy` yields
`"sad"`; a value containing neither, or no `Vote:` line at all, yields
`"neutral"`. -/
theorem C5_vote_mood_from_last_line (role response : String)
    (h : ∃ acc, parseVoteFold parseVoteInit (splitChar '\n' response.data) = Except.ok acc) :
    (parseVote role response).vote_mood = lastVoteMood (splitChar '\n' response.data) ∧
    (∀ v, isSubL "happy".data v = true → moodOfValue v = "happy") ∧
    (∀ v, isSubL "happy".data v = false → isSubL "sad".data v = true → moodOfValue v = "sad") ∧
    (∀ v, isSubL "happy".data v = false → isSubL "sad".data v = false →
      moodOfValue v = "neutral") := by
  obtain ⟨acc, hf⟩ := h
  refine ⟨?_, ?_, ?_, ?_⟩
  · have hm := parseVoteFold_ok_mood _ _ _ hf
    unfold parseVote
    rw [hf]
    show acc.mood = lastVoteMood (splitChar '\n' response.data)
    unfold lastVoteMood
    cases hfind : (splitChar '\n' response.data).reverse.find? isVoteLine with
    | some l => rw [hfind] at hm; simpa using hm
    | none => rw [hfind] at hm; simpa using hm
  · intro v hv
    unfold moodOfValue
    simp [hv]
  · intro v h1 h2
    unfold moodOfValue
    simp [h1, h2]
  · intro v h1 h2
    unfold moodOfValue
    simp [h1, h2]

/-- Witness for C5 at a concrete input whose `Vote:` value contains both
moods: the loop finishes normally and the decoded mood obeys the stated
rule. -/
theorem C5_vote_mood_witness :
    (∃ acc, parseVoteFold parseVoteInit (splitChar '\n' "Vote: Sad or maybe Happy".data) =
      Except.ok acc) ∧
    (parseVote "Economic Analyst" "Vote: Sad or maybe Happy").vote_mood =
      lastVoteMood (splitChar '\n' "Vote: Sad or maybe Happy".data) :=
  ⟨⟨_, rfl⟩,
    (C5_vote_mood_from_last_line "Economic Analyst" "Vote: Sad or maybe Happy" ⟨_, rfl⟩).1⟩

/-- C5 counterexample to the claim as frozen: with two `Vote:` lines the
decoder keeps the mood of the last one, not the first.  The first `Vote:`
line's value contains `happy`, so the first-line rule of the claim demands
`"happy"`, but the decoder returns `"sad"`. -/
theorem C5_first_line_counterexample :
    (parseVote "Economic Analyst" "Vote: happy\nVote: sad").vote_mood = "sad" ∧
    moodOfValue (toLowerL (trimL (afterColonL "Vote: happy".data))) = "happy" := by
  exact ⟨rfl, rfl⟩

/-- C6: the Vote Decoder computes confidence from a `Confidence:` line by
keeping only digits and periods, parsing the remainder as a number, clamping
to `[0,100]` and dividing by `100`; when every `Confidence:` line of the
response is unparseable — in particular when there is none — the confidence
is the default `0.5`; `Confidence: 85` yields `0.85`; and the returned
confidence always lies in `[0,1]`. -/
theorem C6_confidence_normalization (role response : String) :
    (0 ≤ (parseVote role response).confidence ∧ (parseVote role response).confidence ≤ 1) ∧
    ((∀ l ∈ splitChar '\n' response.data, isConfLine l = true →
        parseFloatQ (confFiltered l) = none) →
      (parseVote role response).confidence = 1/2) ∧
    (∀ (acc : VoteAcc) (line : List Char) (conf_num : ℚ), isConfLine line = true →
      parseFloatQ (confFiltered line) = some conf_num →
      parseVoteLine acc line =
        Except.ok { acc with conf := min 100 (max 0 conf_num) / 100 }) ∧
    (parseVote "Economic Analyst" "Confidence: 85").confidence = 85 / 100 := by
  refine ⟨parseVote_conf_range role response, ?_, ?_, ?_⟩
  · intro hnone
    rw [parseVote_confidence_eq, parseVoteFold_conf_default _ _ hnone]
    rfl
  · intro acc line conf_num hc hp
    have hv := isVoteLine_false_of_conf line hc
    unfold parseVoteLine
    simp [hv, hc, hp]
  · show min 100 (max 0 ((85 : ℕ) : ℚ)) / 100 = 85 / 100
    rw [show ((85 : ℕ) : ℚ) = 85 by norm_num,
      show max (0 : ℚ) 85 = 85 from max_eq_right (by norm_num),
      show min (100 : ℚ) 85 = 85 from min_eq_right (by norm_num)]

/-- Witness for C6 at a concrete response with no `Confidence:` line: the
hypothesis of the default-confidence conjunct holds and the decoded
confidence is `0.5`. -/
theorem C6_confidence_witness :
    (∀ l ∈ splitChar '\n' "Vote: Happy\nReasoning: growth".data, isConfLine l = true →
      parseFloatQ (confFiltered l) = none) ∧
    (parseVote "Economic Analyst" "Vote: Happy\nReasoning: growth").confidence = 1/2 :=
  ⟨by decide,
    (C6_confidence_normalization "Economic Analyst" "Vote: Happy\nReasoning: growth").2.1
      (by decide)⟩

/-- C7 (amended): any exception in the `_parse_vote` line loop is caught
locally: the decoder still returns a `Vote`, whose `reasoning` is the entire
raw response and whose mood and confidence are the values accumulated from
the lines processed before the exception (their defaults `"neutral"` and
`0.5` if never reassigned); nothing propagates to the caller. -/
theorem C7_decoder_total_on_exception (role response : String) (acc : VoteAcc)
    (h : parseVoteFold parseVoteInit (splitChar '\n' response.data) = Except.error acc) :
    parseVote role response =
      { expert_role := role, vote_mood := acc.mood, confidence := acc.conf,
        reasoning := response } := by
  unfold parseVote
  rw [h]

/-- Witness for C7 at a concrete response whose `Confidence:` value has no
digits: the loop raises at that line with the accumulator still at its
initial values, and the decoder returns the corresponding vote with the raw
response as reasoning. -/
theorem C7_decoder_total_witness :
    parseVoteFold parseVoteInit (splitChar '\n' "Confidence: high".data) =
      Except.error parseVoteInit ∧
    parseVote "Economic Analyst" "Confidence: high" =
      { expert_role := "Economic Analyst", vote_mood := parseVoteInit.mood,
        confidence := parseVoteInit.conf, reasoning := "Confidence: high" } :=
  ⟨rfl, C7_decoder_total_on_exception "Economic Analyst" "Confidence: high" parseVoteInit rfl⟩

/-- C7 counterexample to the claim as frozen: on an exception the decoder
does not return the all-default Vote — mood parsed before the exception is
kept.  Here the `Vote: Happy` line is processed before the malformed
`Confidence:` line raises, so the returned mood is `"happy"`, not the
default `"neutral"` (the reasoning is the raw response, as claimed). -/
theorem C7_default_vote_counterexample :
    (parseVote "Economic Analyst" "Vote: Happy\nConfidence: high").vote_mood = "happy" ∧
    ("happy" : String) ≠ "neutral" ∧
    (parseVote "Economic Analyst" "Vote: Happy\nConfidence: high").reasoning =
      "Vote: Happy\nConfidence: high" := by
  refine ⟨rfl, by decide, rfl⟩

/-! ## Routing decoder lemmas -/

lemma isContinueLine_false_of_target (line : List Char) (ht : isTargetLine line = true) :
    isContinueLine line = false := by
  unfold isTargetLine at ht
  obtain ⟨t, h⟩ := head_of_cons_isPrefixOf 't' "arget experts:".data (trimL (toLowerL line)) ht
  unfold isContinueLine
  rw [h]
  show (('c' == 't') && "ontinue:".data.isPrefixOf t) = false
  rfl

lemma matchMentioned_mem :
    ∀ (roster : List String) (ms : List (List Char)) (ts : List String) (e : String),
      e ∈ matchMentioned roster ms ts ↔
        e ∈ ts ∨ (e ∈ roster ∧ ms.any (fun m => bidirMatch e m) = true)
  | [], ms, ts, e => by simp [matchMentioned]
  | expert :: rest, ms, ts, e => by
    by_cases hm : ms.any (fun m => bidirMatch expert m) = true
    · by_cases hin : ts.contains expert = true
      · have hred : matchMentioned (expert :: rest) ms ts = matchMentioned rest ms ts := by
          show matchMentioned rest ms
            (if ms.any (fun m => bidirMatch expert m) then
              (if ts.contains expert then ts else ts ++ [expert]) else ts) =
            matchMentioned rest ms ts
          rw [if_pos hm, if_pos hin]
        have hmem : expert ∈ ts := by
          simpa [List.contains, List.elem_eq_mem] using hin
        rw [hred, matchMentioned_mem rest ms ts e]
        constructor
        · rintro (h | ⟨hr, ha⟩)
          · exact Or.inl h
          · exact Or.inr ⟨List.mem_cons_of_mem _ hr, ha⟩
        · rintro (h | ⟨he, ha⟩)
          · exact Or.inl h
          · rcases List.mem_cons.mp he with rfl | hr
            · exact Or.inl hmem
            · exact Or.inr ⟨hr, ha⟩
      · have hred : matchMentioned (expert :: rest) ms ts =
            matchMentioned rest ms (ts ++ [expert]) := by
          show matchMentioned rest ms
            (if ms.any (fun m => bidirMatch expert m) then
              (if ts.contains expert then ts else ts ++ [expert]) else ts) =
            matchMentioned rest ms (ts ++ [expert])
          rw [if_pos hm, if_neg hin]
        rw [hred, matchMentioned_mem rest ms (ts ++ [expert]) e]
        simp only [List.mem_append, List.mem_singleton]
        constructor
        · rintro ((h | rfl) | ⟨hr, ha⟩)
          · exact Or.inl h
          · exact Or.inr ⟨List.mem_cons_self _ _, hm⟩
          · exact Or.inr ⟨List.mem_cons_of_mem _ hr, ha⟩
        · rintro (h | ⟨he, ha⟩)
          · exact Or.inl (Or.inl h)
          · rcases List.mem_cons.mp he with rfl | hr
            · exact Or.inl (Or.inr rfl)
            · exact Or.inr ⟨hr, ha⟩
    · have hred : matchMentioned (expert :: rest) ms ts = matchMentioned rest ms ts := by
        show matchMentioned rest ms
          (if ms.any (fun m => bidirMatch expert m) then
            (if ts.contains expert then ts else ts ++ [expert]) else ts) =
          matchMentioned rest ms ts
        rw [if_neg hm]
      rw [hred, matchMentioned_mem rest ms ts e]
      constructor
      · rintro (h | ⟨hr, ha⟩)
        · exact Or.inl h
        · exact Or.inr ⟨List.mem_cons_of_mem _ hr, ha⟩
      · rintro (h | ⟨he, ha⟩)
        · exact Or.inl h
        · rcases List.mem_cons.mp he with rfl | hr
          · exact absurd ha hm
          · exact Or.inr ⟨hr, ha⟩

lemma matchMentioned_nodup :
    ∀ (roster : List String) (ms : List (List Char)) (ts : List String),
      ts.Nodup → (matchMentioned roster ms ts).Nodup
  | [], ms, ts, h => by simpa [matchMentioned] using h
  | expert :: rest, ms, ts, h => by
    by_cases hm : ms.any (fun m => bidirMatch expert m) = true
    · by_cases hin : ts.contains expert = true
      · have hred : matchMentioned (expert :: rest) ms ts = matchMentioned rest ms ts := by
          show matchMentioned rest ms
            (if ms.any (fun m => bidirMatch expert m) then
              (if ts.contains expert then ts else ts ++ [expert]) else ts) =
            matchMentioned rest ms ts
          rw [if_pos hm, if_pos hin]
        rw [hred]
        exact matchMentioned_nodup rest ms ts h
      · have hred : matchMentioned (expert :: rest) ms ts =
            matchMentioned rest ms (ts ++ [expert]) := by
          show matchMentioned rest ms
            (if ms.any (fun m => bidirMatch expert m) then
              (if ts.contains expert then ts else ts ++ [expert]) else ts) =
            matchMentioned rest ms (ts ++ [expert])
          rw [if_pos hm, if_neg hin]
        rw [hred]
        apply matchMentioned_nodup rest ms (ts ++ [expert])
        have hne : expert ∉ ts := by
          simpa [List.contains, List.elem_eq_mem] using hin
        exact List.Nodup.append h (List.nodup_singleton expert)
          (fun a ha hb => hne (List.mem_singleton.mp hb ▸ ha))
    · have hred : matchMentioned (expert :: rest) ms ts = matchMentioned rest ms ts := by
        show matchMentioned rest ms
          (if ms.any (fun m => bidirMatch expert m) then
            (if ts.contains expert then ts else ts ++ [expert]) else ts) =
          matchMentioned rest ms ts
        rw [if_neg hm]
      rw [hred]
      exact matchMentioned_nodup rest ms ts h

/-- C8: resolution of the `Target Experts:` line by the Routing Decoder.
For any accumulated routing state (in particular one in which a preceding
`Continue:` line already set `should_continue = true`): a value containing
`none` (case-insensitive) forces `continue = false` with an empty target
set; otherwise a value containing `all` yields the full roster; otherwise
the value is split on commas, each token trimmed, and a roster role is
targeted iff it was already targeted or some token matches it by
bidirectional case-insensitive substring containment, with the target list
staying duplicate-free.  On the concrete example of the specification the
decoder yields `continue = true` with the two named experts resolved to
their canonical roles. -/
theorem C8_routing_target_resolution :
    (∀ (roster : List String) (acc : RoutingAcc) (line : List Char),
      isTargetLine line = true →
      (isSubL "none".data (toLowerL (trimL (afterColonL line))) = true →
        parseFollowupLine roster acc line =
          { should_continue := false, target_experts := [] }) ∧
      (isSubL "none".data (toLowerL (trimL (afterColonL line))) = false →
        isSubL "all".data (toLowerL (trimL (afterColonL line))) = true →
        parseFollowupLine roster acc line = { acc with target_experts := roster }) ∧
      (isSubL "none".data (toLowerL (trimL (afterColonL line))) = false →
        isSubL "all".data (toLowerL (trimL (afterColonL line))) = false →
        parseFollowupLine roster acc line =
          { acc with target_experts :=
              (matchMentioned roster ((splitChar ',' (trimL (afterColonL line))).map trimL)
                acc.target_experts) } ∧
        (∀ e, e ∈ (parseFollowupLine roster acc line).target_experts ↔
          e ∈ acc.target_experts ∨ (e ∈ roster ∧
            (((splitChar ',' (trimL (afterColonL line))).map trimL).any
              (fun m => bidirMatch e m)) = true)) ∧
        (acc.target_experts.Nodup →
          (parseFollowupLine roster acc line).target_experts.Nodup))) ∧
    parseFollowup expert_roles "Continue: Yes\nTarget Experts: economic, environmental" =
      (true, ["Economic Analyst", "Environmental Scientist"]) := by
  constructor
  · intro roster acc line ht
    have hcont := isContinueLine_false_of_target line ht
    have hbody : ∀ (r : RoutingAcc), parseFollowupLine roster acc line = r ↔
        (if isSubL "none".data (toLowerL (trimL (afterColonL line))) then
          ({ should_continue := false, target_experts := [] } : RoutingAcc)
        else if isSubL "all".data (toLowerL (trimL (afterColonL line))) then
          { acc with target_experts := roster }
        else
          { acc with target_experts :=
              (matchMentioned roster ((splitChar ',' (trimL (afterColonL line))).map trimL)
                acc.target_experts) }) = r := by
      intro r
      unfold parseFollowupLine
      rw [if_neg (by simp [hcont]), if_pos ht]
    refine ⟨?_, ?_, ?_⟩
    · intro hnone
      rw [hbody, if_pos hnone]
    · intro hnone hall
      rw [hbody, if_neg (by simp [hnone]), if_pos hall]
    · intro hnone hall
      have heq : parseFollowupLine roster acc line =
          { acc with target_experts :=
              (matchMentioned roster ((splitChar ',' (trimL (afterColonL line))).map trimL)
                acc.target_experts) } := by
        rw [hbody, if_neg (by simp [hnone]), if_neg (by simp [hall])]
      refine ⟨heq, ?_, ?_⟩
      · intro e
        rw [heq]
        exact matchMentioned_mem roster _ acc.target_experts e
      · intro hnd
        rw [heq]
        exact matchMentioned_nodup roster _ acc.target_experts hnd
  · decide

/-- Witness for C8 at a concrete `Target Experts: None` line arriving after
a `Continue: Yes` state: the decoder forces `continue = false` with an empty
target set. -/
theorem C8_routing_witness :
    isTargetLine "Target Experts: None".data = true ∧
    isSubL "none".data (toLowerL (trimL (afterColonL "Target Experts: None".data))) = true ∧
    parseFollowupLine expert_roles { should_continue := true, target_experts := [] }
        "Target Experts: None".data =
      { should_continue := false, target_experts := [] } :=
  ⟨by decide, by decide,
    ((C8_routing_target_resolution.1 expert_roles
        { should_continue := true, target_experts := [] }
        "Target Experts: None".data (by decide)).1 (by decide))⟩

/-! ## `_calculate_final_mood` lemmas -/

lemma moodValues_of_ok (m : String) (h : MoodOk m) : moodValues m = some (anchor m) := by
  rcases h with rfl | rfl | rfl <;> simp [moodValues, anchor]

lemma anchor_happy : anchor "happy" = 100 := by
  rw [anchor, if_pos rfl]

lemma anchor_neutral : anchor "neutral" = 50 := by
  rw [anchor, if_neg (by decide), if_pos rfl]

lemma anchor_sad : anchor "sad" = 0 := by
  rw [anchor, if_neg (by decide), if_neg (by decide)]

lemma anchor_bounds (m : String) (h : MoodOk m) : 0 ≤ anchor m ∧ anchor m ≤ 100 := by
  rcases h with rfl | rfl | rfl
  · rw [anchor_happy]
    norm_num
  · rw [anchor_neutral]
    norm_num
  · rw [anchor_sad]
    norm_num

lemma voteTotals_go :
    ∀ (votes : List Vote) (a b : ℚ), (∀ v ∈ votes, MoodOk v.vote_mood) →
      votes.foldl voteStep (some (a, b)) = some (a + sumWeighted votes, b + sumConf votes)
  | [], a, b, _ => by simp [sumWeighted, sumConf]
  | v :: vs, a, b, h => by
    have hv := h v (by simp)
    have hstep : voteStep (some (a, b)) v =
        some (a + anchor v.vote_mood * v.confidence, b + v.confidence) := by
      unfold voteStep
      rw [moodValues_of_ok _ hv]
    rw [List.foldl_cons, hstep, voteTotals_go vs _ _ (fun w hw => h w (by simp [hw]))]
    simp only [sumWeighted, sumConf, List.map_cons, List.sum_cons, Option.some.injEq,
      Prod.mk.injEq]
    constructor <;> ring

lemma voteTotals_eq (votes : List Vote) (h : ∀ v ∈ votes, MoodOk v.vote_mood) :
    voteTotals votes = some (sumWeighted votes, sumConf votes) := by
  unfold voteTotals
  rw [voteTotals_go votes 0 0 h]
  simp

lemma sum_bounds :
    ∀ (votes : List Vote),
      (∀ v ∈ votes, MoodOk v.vote_mood ∧ 0 ≤ v.confidence ∧ v.confidence ≤ 1) →
      0 ≤ sumConf votes ∧ 0 ≤ sumWeighted votes ∧ sumWeighted votes ≤ 100 * sumConf votes
  | [], _ => by norm_num [sumConf, sumWeighted]
  | v :: vs, h => by
    obtain ⟨hm, hc0, hc1⟩ := h v (by simp)
    obtain ⟨ha0, ha100⟩ := anchor_bounds v.vote_mood hm
    obtain ⟨ih0, ih1, ih2⟩ := sum_bounds vs (fun w hw => h w (by simp [hw]))
    have hterm0 : 0 ≤ anchor v.vote_mood * v.confidence := mul_nonneg ha0 hc0
    have hterm1 : anchor v.vote_mood * v.confidence ≤ 100 * v.confidence :=
      mul_le_mul_of_nonneg_right ha100 hc0
    refine ⟨?_, ?_, ?_⟩
    · simp only [sumConf, List.map_cons, List.sum_cons]
      have : sumConf vs = (vs.map Vote.confidence).sum := rfl
      linarith [ih0]
    · simp only [sumWeighted, List.map_cons, List.sum_cons]
      have : sumWeighted vs = (vs.map (fun v => anchor v.vote_mood * v.confidence)).sum := rfl
      linarith [ih1]
    · simp only [sumWeighted, sumConf, List.map_cons, List.sum_cons]
      have h1 : sumWeighted vs = (vs.map (fun v => anchor v.vote_mood * v.confidence)).sum := rfl
      have h2 : sumConf vs = (vs.map Vote.confidence).sum := rfl
      have := ih2
      rw [h1, h2] at this
      linarith

lemma calculateFinalMood_eq (votes : List Vote) (h : ∀ v ∈ votes, MoodOk v.vote_mood) :
    calculateFinalMood votes =
      (if sumConf votes = 0 then some ("neutral", 50)
       else if sumWeighted votes / sumConf votes ≥ 67 then
         some ("happy", sumWeighted votes / sumConf votes)
       else if sumWeighted votes / sumConf votes ≥ 34 then
         some ("neutral", sumWeighted votes / sumConf votes)
       else some ("sad", sumWeighted votes / sumConf votes)) := by
  unfold calculateFinalMood
  rw [voteTotals_eq votes h]

/-- C1: for every vote list with moods among happy/neutral/sad and
confidences in `[0,1]`, the aggregator succeeds and returns
`Σ(anchor × confidence) / Σ(confidence)` with anchors happy = 100,
neutral = 50, sad = 0; a zero confidence total (including the empty list)
gives mood `"neutral"` and score `50.0` without error; the score always
lies in `[0,100]`; and the mood is `"happy"` iff score ≥ 67, `"neutral"`
iff 34 ≤ score < 67, and `"sad"` iff score < 34. -/
theorem C1_score_aggregation (votes : List Vote)
    (h : ∀ v ∈ votes, MoodOk v.vote_mood ∧ 0 ≤ v.confidence ∧ v.confidence ≤ 1) :
    ∃ mood score, calculateFinalMood votes = some (mood, score) ∧
      (sumConf votes = 0 → mood = "neutral" ∧ score = 50) ∧
      (sumConf votes ≠ 0 → score = sumWeighted votes / sumConf votes) ∧
      0 ≤ score ∧ score ≤ 100 ∧
      (mood = "happy" ↔ 67 ≤ score) ∧
      (mood = "neutral" ↔ 34 ≤ score ∧ score < 67) ∧
      (mood = "sad" ↔ score < 34) := by
  have hmd : ∀ v ∈ votes, MoodOk v.vote_mood := fun v hv => (h v hv).1
  obtain ⟨hc0, hw0, hwle⟩ := sum_bounds votes h
  rw [calculateFinalMood_eq votes hmd]
  by_cases hz : sumConf votes = 0
  · rw [if_pos hz]
    refine ⟨"neutral", 50, rfl, fun _ => ⟨rfl, rfl⟩, fun hzz => absurd hz hzz, by norm_num,
      by norm_num, ?_, ?_, ?_⟩
    · exact iff_of_false (by decide) (by norm_num)
    · exact iff_of_true rfl ⟨by norm_num, by norm_num⟩
    · exact iff_of_false (by decide) (by norm_num)
  · rw [if_neg hz]
    have hcpos : 0 < sumConf votes := lt_of_le_of_ne hc0 (Ne.symm hz)
    have hs0 : 0 ≤ sumWeighted votes / sumConf votes := div_nonneg hw0 hc0
    have hs100 : sumWeighted votes / sumConf votes ≤ 100 := by
      rw [div_le_iff₀ hcpos]
      linarith
    by_cases h67 : sumWeighted votes / sumConf votes ≥ 67
    · rw [if_pos h67]
      refine ⟨"happy", _, rfl, fun hzz => absurd hzz hz, fun _ => rfl, hs0, hs100, ?_, ?_, ?_⟩
      · exact iff_of_true rfl h67
      · exact iff_of_false (by decide) (fun hc => absurd h67 (not_le.mpr hc.2))
      · exact iff_of_false (by decide) (fun hc => absurd h67 (not_le.mpr (by linarith)))
    · by_cases h34 : sumWeighted votes / sumConf votes ≥ 34
      · rw [if_neg h67, if_pos h34]
        refine ⟨"neutral", _, rfl, fun hzz => absurd hzz hz, fun _ => rfl, hs0, hs100,
          ?_, ?_, ?_⟩
        · exact iff_of_false (by decide) (fun hc => absurd hc h67)
        · exact iff_of_true rfl ⟨h34, not_le.mp h67⟩
        · exact iff_of_false (by decide) (fun hc => absurd h34 (not_le.mpr hc))
      · rw [if_neg h67, if_neg h34]
        refine ⟨"sad", _, rfl, fun hzz => absurd hzz hz, fun _ => rfl, hs0, hs100,
          ?_, ?_, ?_⟩
        · exact iff_of_false (by decide) (fun hc => absurd hc h67)
        · exact iff_of_false (by decide) (fun hc => absurd hc.1 h34)
        · exact iff_of_true rfl (not_le.mp h34)

/-- Witness for C1 at the concrete boundary vote list
`[(happy, 0.67), (sad, 0.33)]`, whose score is exactly the threshold 67. -/
theorem C1_score_aggregation_witness :
    (∀ v ∈ [(⟨"Economic Analyst", "happy", 67/100, "r"⟩ : Vote),
        ⟨"Environmental Scientist", "sad", 33/100, "r"⟩],
      MoodOk v.vote_mood ∧ 0 ≤ v.confidence ∧ v.confidence ≤ 1) ∧
    (∃ mood score,
      calculateFinalMood [(⟨"Economic Analyst", "happy", 67/100, "r"⟩ : Vote),
        ⟨"Environmental Scientist", "sad", 33/100, "r"⟩] = some (mood, score) ∧
      (sumConf [(⟨"Economic Analyst", "happy", 67/100, "r"⟩ : Vote),
          ⟨"Environmental Scientist", "sad", 33/100, "r"⟩] = 0 →
        mood = "neutral" ∧ score = 50) ∧
      (sumConf [(⟨"Economic Analyst", "happy", 67/100, "r"⟩ : Vote),
          ⟨"Environmental Scientist", "sad", 33/100, "r"⟩] ≠ 0 →
        score = sumWeighted [(⟨"Economic Analyst", "happy", 67/100, "r"⟩ : Vote),
            ⟨"Environmental Scientist", "sad", 33/100, "r"⟩] /
          sumConf [(⟨"Economic Analyst", "happy", 67/100, "r"⟩ : Vote),
            ⟨"Environmental Scientist", "sad", 33/100, "r"⟩]) ∧
      0 ≤ score ∧ score ≤ 100 ∧
      (mood = "happy" ↔ 67 ≤ score) ∧
      (mood = "neutral" ↔ 34 ≤ score ∧ score < 67) ∧
      (mood = "sad" ↔ score < 34)) := by
  have hhyp : ∀ v ∈ [(⟨"Economic Analyst", "happy", 67/100, "r"⟩ : Vote),
      ⟨"Environmental Scientist", "sad", 33/100, "r"⟩],
      MoodOk v.vote_mood ∧ 0 ≤ v.confidence ∧ v.confidence ≤ 1 := by
    intro v hv
    simp only [List.mem_cons, List.not_mem_nil, or_false] at hv
    rcases hv with rfl | rfl
    · exact ⟨Or.inl rfl, by norm_num, by norm_num⟩
    · exact ⟨Or.inr (Or.inr rfl), by norm_num, by norm_num⟩
  exact ⟨hhyp, C1_score_aggregation _ hhyp⟩

/-! ## Orchestrator state lemmas -/

lemma extendsT_refl (st : PanelState) : ExtendsT st st :=
  ⟨[], (List.append_nil _).symm⟩

lemma extendsT_trans {a b c : PanelState} (h1 : ExtendsT a b) (h2 : ExtendsT b c) :
    ExtendsT a c := by
  obtain ⟨n1, e1⟩ := h1
  obtain ⟨n2, e2⟩ := h2
  exact ⟨n1 ++ n2, by rw [e2, e1, List.append_assoc]⟩

lemma addTranscript_inv (st : PanelState) (sp c : String) (r : Option ℕ)
    (h : TranscriptInv st) : TranscriptInv (addTranscript st sp c r) := by
  obtain ⟨h1, h2⟩ := h
  unfold TranscriptInv addTranscript
  constructor
  · simp only [List.map_append, List.length_append, List.map_cons, List.map_nil,
      List.length_cons, List.length_nil]
    rw [h1, h2, Nat.zero_add, List.range'_1_concat]
    simp [Nat.add_comm]
  · simp only [List.length_append, List.length_cons, List.length_nil]
    omega

lemma expertAnalysisPass_inv (env : ℕ → String) (rn : ℕ) :
    ∀ (roster : List String) (st : PanelState), TranscriptInv st →
      TranscriptInv (expertAnalysisPass env rn roster st)
  | [], _, h => h
  | role :: rest, st, h => by
    apply expertAnalysisPass_inv env rn rest
    apply addTranscript_inv
    exact h

lemma expertAnalysisPass_ext (env : ℕ → String) (rn : ℕ) :
    ∀ (roster : List String) (st : PanelState), ExtendsT st (expertAnalysisPass env rn roster st)
  | [], st => extendsT_refl st
  | role :: rest, st =>
    extendsT_trans ⟨_, rfl⟩ (expertAnalysisPass_ext env rn rest _)

lemma collectRoundAnalyses_ok (env : ℕ → String) (r : String) (rs : List String)
    (cc : String) (rn : ℕ) (first : Bool) (st : PanelState) :
    ∃ st', collectRoundAnalyses env (r :: rs) cc rn first st = Except.ok st' ∧
      (TranscriptInv st → TranscriptInv st') ∧ ExtendsT st st' := by
  cases first with
  | true =>
    refine ⟨_, rfl, fun h => ?_, ?_⟩
    · exact expertAnalysisPass_inv env rn (r :: rs) _ (addTranscript_inv _ _ _ _ h)
    · exact extendsT_trans ⟨_, rfl⟩ (expertAnalysisPass_ext env rn (r :: rs) _)
  | false =>
    refine ⟨_, rfl, fun h => ?_, ?_⟩
    · exact expertAnalysisPass_inv env rn (r :: rs) _ (addTranscript_inv _ _ _ _ h)
    · exact extendsT_trans ⟨_, rfl⟩ (expertAnalysisPass_ext env rn (r :: rs) _)

lemma conductDynamicDebateRound_inv (env : ℕ → String) (roster : List String) (rn : ℕ)
    (tg : List String) (st : PanelState) (h : TranscriptInv st) :
    TranscriptInv (conductDynamicDebateRound env roster rn tg st) := by
  apply expertAnalysisPass_inv
  apply addTranscript_inv
  exact h

lemma conductDynamicDebateRound_ext (env : ℕ → String) (roster : List String) (rn : ℕ)
    (tg : List String) (st : PanelState) :
    ExtendsT st (conductDynamicDebateRound env roster rn tg st) :=
  extendsT_trans ⟨_, rfl⟩ (expertAnalysisPass_ext env rn _ _)

lemma debateLoop_spec (env : ℕ → String) (roster : List String) :
    ∀ (fuel round_num : ℕ) (st : PanelState),
      (TranscriptInv st → TranscriptInv (debateLoop env roster round_num fuel st).1) ∧
      ExtendsT st (debateLoop env roster round_num fuel st).1 ∧
      round_num ≤ (debateLoop env roster round_num fuel st).2 ∧
      (debateLoop env roster round_num fuel st).2 ≤ round_num + fuel
  | 0, rn, st => ⟨fun h => h, extendsT_refl st, le_refl rn, Nat.le_add_right rn 0⟩
  | fuel + 1, rn, st => by
    have hred : debateLoop env roster rn (fuel + 1) st =
        (if (parseFollowup roster (env st.calls)).1 then
          debateLoop env roster (rn + 1) fuel
            (conductDynamicDebateRound env roster rn (parseFollowup roster (env st.calls)).2
              { st with calls := st.calls + 1 })
        else ({ st with calls := st.calls + 1 }, rn)) := rfl
    rw [hred]
    cases hb : (parseFollowup roster (env st.calls)).1 with
    | false =>
      rw [if_neg (by simp [hb])]
      exact ⟨fun h => h, ⟨[], (List.append_nil _).symm⟩, le_refl rn, by omega⟩
    | true =>
      rw [if_pos (by simp [hb])]
      obtain ⟨ih_inv, ih_ext, ih_lo, ih_hi⟩ := debateLoop_spec env roster fuel (rn + 1)
        (conductDynamicDebateRound env roster rn (parseFollowup roster (env st.calls)).2
          { st with calls := st.calls + 1 })
      refine ⟨fun h => ih_inv ?_, ?_, by omega, by omega⟩
      · exact conductDynamicDebateRound_inv env roster rn _ _ h
      · exact extendsT_trans
          (conductDynamicDebateRound_ext env roster rn (parseFollowup roster (env st.calls)).2
            { st with calls := st.calls + 1 })
          ih_ext

lemma votingPass_inv (env : ℕ → String) :
    ∀ (roster : List String) (votes : List Vote) (st : PanelState), TranscriptInv st →
      TranscriptInv (votingPass env roster (votes, st)).2
  | [], _, _, h => h
  | role :: rest, votes, st, h => by
    apply votingPass_inv env rest
    apply addTranscript_inv
    exact h

lemma votingPass_ext (env : ℕ → String) :
    ∀ (roster : List String) (votes : List Vote) (st : PanelState),
      ExtendsT st (votingPass env roster (votes, st)).2
  | [], _, st => extendsT_refl st
  | role :: rest, votes, st =>
    extendsT_trans ⟨_, rfl⟩ (votingPass_ext env rest _ _)

lemma votingPass_votes (env : ℕ → String) :
    ∀ (roster : List String) (votes : List Vote) (st : PanelState),
      ∀ v ∈ (votingPass env roster (votes, st)).1, v ∈ votes ∨ MoodOk v.vote_mood
  | [], votes, st, v, hv => Or.inl hv
  | role :: rest, votes, st, v, hv => by
    have ih := votingPass_votes env rest
      (votes ++ [parseVote role (env st.calls)]) _ v hv
    rcases ih with hmem | hok
    · rcases List.mem_append.mp hmem with h1 | h2
      · exact Or.inl h1
      · have : v = parseVote role (env st.calls) := List.mem_singleton.mp h2
        exact Or.inr (this ▸ parseVote_mood_ok role (env st.calls))
    · exact Or.inr hok

lemma conductVoting_inv (env : ℕ → String) (roster : List String) (st : PanelState)
    (h : TranscriptInv st) : TranscriptInv (conductVoting env roster st).2 := by
  apply votingPass_inv
  apply addTranscript_inv
  exact h

lemma conductVoting_ext (env : ℕ → String) (roster : List String) (st : PanelState) :
    ExtendsT st (conductVoting env roster st).2 :=
  extendsT_trans ⟨_, rfl⟩ (votingPass_ext env roster [] _)

lemma conductVoting_votes (env : ℕ → String) (roster : List String) (st : PanelState) :
    ∀ v ∈ (conductVoting env roster st).1, MoodOk v.vote_mood := by
  intro v hv
  rcases votingPass_votes env roster [] _ v hv with h0 | hok
  · exact absurd h0 (List.not_mem_nil v)
  · exact hok

lemma calculateFinalMood_some (votes : List Vote) (h : ∀ v ∈ votes, MoodOk v.vote_mood) :
    ∃ ms, calculateFinalMood votes = some ms := by
  rw [calculateFinalMood_eq votes h]
  split_ifs <;> exact ⟨_, rfl⟩

lemma startDiscussion_shape (env : ℕ → String) (roster : List String)
    (cc topic today : String) (mr : ℕ) (st₂ : PanelState) (ms : String × ℚ)
    (h : collectRoundAnalyses env roster cc 1 true
        (addTranscript { transcripts := [], analyses := [], turn_order := 0, calls := 0 + 1 }
          "Moderator" (env 0) none) = Except.ok st₂)
    (hc : calculateFinalMood (conductVoting env roster (debateLoop env roster 2 (mr - 1) st₂).1).1 = some ms) :
    startDiscussion env roster cc topic today mr =
      Except.ok {
        country_code := cc, topic := topic,
        final_mood := ms.1, final_score := ms.2,
        introduction := env 0,
        conclusion := env (conductVoting env roster (debateLoop env roster 2 (mr - 1) st₂).1).2.calls,
        discussion_date := today,
        total_turns := (addTranscript { (conductVoting env roster (debateLoop env roster 2 (mr - 1) st₂).1).2 with calls := (conductVoting env roster (debateLoop env roster 2 (mr - 1) st₂).1).2.calls + 1 } "Moderator"
          (env (conductVoting env roster (debateLoop env roster 2 (mr - 1) st₂).1).2.calls) none).transcripts.length,
        debate_rounds := (debateLoop env roster 2 (mr - 1) st₂).2 - 1,
        analyses := (addTranscript { (conductVoting env roster (debateLoop env roster 2 (mr - 1) st₂).1).2 with calls := (conductVoting env roster (debateLoop env roster 2 (mr - 1) st₂).1).2.calls + 1 } "Moderator"
          (env (conductVoting env roster (debateLoop env roster 2 (mr - 1) st₂).1).2.calls) none).analyses,
        votes := (conductVoting env roster (debateLoop env roster 2 (mr - 1) st₂).1).1,
        transcripts := (addTranscript { (conductVoting env roster (debateLoop env roster 2 (mr - 1) st₂).1).2 with calls := (conductVoting env roster (debateLoop env roster 2 (mr - 1) st₂).1).2.calls + 1 } "Moderator"
          (env (conductVoting env roster (debateLoop env roster 2 (mr - 1) st₂).1).2.calls) none).transcripts } := by
  simp only [startDiscussion, moderatorIntroduce, moderatorConclude, askAgent, h, hc]

lemma startDiscussion_run (env : ℕ → String) (r : String) (rs : List String)
    (cc topic today : String) (mr : ℕ) :
    ∃ res, startDiscussion env (r :: rs) cc topic today mr = Except.ok res ∧
      res.total_turns = res.transcripts.length ∧
      res.transcripts.map Transcript.turn_order = List.range' 1 res.total_turns ∧
      1 ≤ res.total_turns ∧
      1 ≤ res.debate_rounds ∧ res.debate_rounds ≤ max 1 mr := by
  obtain ⟨st₂, h2, hinv2, hext2⟩ := collectRoundAnalyses_ok env r rs cc 1 true
    (addTranscript { transcripts := [], analyses := [], turn_order := 0, calls := 0 + 1 }
      "Moderator" (env 0) none)
  obtain ⟨ms, hc⟩ := calculateFinalMood_some
    (conductVoting env (r :: rs) (debateLoop env (r :: rs) 2 (mr - 1) st₂).1).1
    (conductVoting_votes env (r :: rs) _)
  have hinvST1 : TranscriptInv
      (addTranscript { transcripts := [], analyses := [], turn_order := 0, calls := 0 + 1 }
      "Moderator" (env 0) none) :=
    addTranscript_inv _ _ _ _ ⟨rfl, rfl⟩
  obtain ⟨dinv, dext, dlo, dhi⟩ := debateLoop_spec env (r :: rs) (mr - 1) 2 st₂
  have hinv4 := conductVoting_inv env (r :: rs)
    (debateLoop env (r :: rs) 2 (mr - 1) st₂).1 (dinv (hinv2 hinvST1))
  have hinv5 := addTranscript_inv
    (conductVoting env (r :: rs) (debateLoop env (r :: rs) 2 (mr - 1) st₂).1).2 "Moderator"
    (env (conductVoting env (r :: rs) (debateLoop env (r :: rs) 2 (mr - 1) st₂).1).2.calls)
    none hinv4
  have hextAll : ExtendsT
      (addTranscript { transcripts := [], analyses := [], turn_order := 0, calls := 0 + 1 }
      "Moderator" (env 0) none)
      (addTranscript
        (conductVoting env (r :: rs) (debateLoop env (r :: rs) 2 (mr - 1) st₂).1).2 "Moderator"
        (env (conductVoting env (r :: rs) (debateLoop env (r :: rs) 2 (mr - 1) st₂).1).2.calls)
        none) :=
    extendsT_trans hext2 (extendsT_trans dext
      (extendsT_trans
        (conductVoting_ext env (r :: rs) (debateLoop env (r :: rs) 2 (mr - 1) st₂).1)
        ⟨_, rfl⟩))
  obtain ⟨new, hnew⟩ := hextAll
  refine ⟨_, startDiscussion_shape env (r :: rs) cc topic today mr st₂ ms h2 hc,
    rfl, hinv5.1, ?_, ?_, ?_⟩
  · show 1 ≤ (addTranscript
      (conductVoting env (r :: rs) (debateLoop env (r :: rs) 2 (mr - 1) st₂).1).2 "Moderator"
      (env (conductVoting env (r :: rs) (debateLoop env (r :: rs) 2 (mr - 1) st₂).1).2.calls)
      none).transcripts.length
    rw [hnew, List.length_append]
    have hlen1 : ((addTranscript { transcripts := [], analyses := [], turn_order := 0, calls := 0 + 1 }
      "Moderator" (env 0) none)).transcripts.length = 1 := rfl
    omega
  · show 1 ≤ (debateLoop env (r :: rs) 2 (mr - 1) st₂).2 - 1
    omega
  · show (debateLoop env (r :: rs) 2 (mr - 1) st₂).2 - 1 ≤ max 1 mr
    rcases Nat.eq_zero_or_pos mr with rfl | hpos
    · have hmax : max 1 (0 : ℕ) = 1 := rfl
      rw [hmax]
      omega
    · rw [Nat.max_eq_right hpos]
      omega

/-- C2: every completed run returns a result with
`total_turns = len(transcripts)` whose recorded `turn_order` values are
exactly the contiguous sequence `1..total_turns`; the order value is
assigned by `_add_transcript` itself photographing its own incremented
counter — callers never pass one. -/
theorem C2_turn_order_contiguous (env : ℕ → String) (r : String) (rs : List String)
    (cc topic today : String) (mr : ℕ) :
    (∀ (st : PanelState) (sp c : String) (rd : Option ℕ),
      addTranscript st sp c rd = { st with
        turn_order := st.turn_order + 1,
        transcripts := st.transcripts ++
          [(⟨sp, c, rd, st.turn_order + 1⟩ : Transcript)] }) ∧
    ∃ res, startDiscussion env (r :: rs) cc topic today mr = Except.ok res ∧
      res.total_turns = res.transcripts.length ∧
      res.transcripts.map Transcript.turn_order = List.range' 1 res.total_turns := by
  refine ⟨fun st sp c rd => rfl, ?_⟩
  obtain ⟨res, h1, h2, h3, _⟩ := startDiscussion_run env r rs cc topic today mr
  exact ⟨res, h1, h2, h3⟩

/-- C3: for every run with `max_rounds ≥ 1` (and a nonempty roster, which
the class hard-codes), the returned result satisfies
`1 ≤ debate_rounds ≤ max_rounds`: round 1 always counts, the loop adds at
most `max_rounds - 1` rounds, and a `continue = false` decision ends the
loop before the unexecuted round is counted. -/
theorem C3_debate_rounds_bounds (env : ℕ → String) (r : String) (rs : List String)
    (cc topic today : String) (mr : ℕ) (hmr : 1 ≤ mr) :
    ∃ res, startDiscussion env (r :: rs) cc topic today mr = Except.ok res ∧
      1 ≤ res.debate_rounds ∧ res.debate_rounds ≤ mr := by
  obtain ⟨res, h1, _, _, _, h5, h6⟩ := startDiscussion_run env r rs cc topic today mr
  exact ⟨res, h1, h5, by rwa [Nat.max_eq_right hmr] at h6⟩

/-- Witness for C3 at `max_rounds = 1` with the hard-coded roster and the
silent environment. -/
theorem C3_debate_rounds_witness :
    1 ≤ 1 ∧ ∃ res, startDiscussion env0 ("Economic Analyst" ::
        ["Social Welfare Specialist", "Environmental Scientist"]) "XX" "topic"
        "2026-10-12" 1 = Except.ok res ∧
      1 ≤ res.debate_rounds ∧ res.debate_rounds ≤ 1 :=
  ⟨le_refl 1, C3_debate_rounds_bounds env0 "Economic Analyst"
    ["Social Welfare Specialist", "Environmental Scientist"] "XX" "topic" "2026-10-12" 1
    (le_refl 1)⟩

/-- C4 counterexample to the claim as frozen: calling the entrypoint with
the invalid configuration `max_rounds = 0` raises no error at entry (or at
all): the run completes, returns a result, and has appended transcript
turns — so state transitions did occur and a result was returned. -/
theorem C4_validation_counterexample :
    ∃ res, startDiscussion env0 expert_roles "XX" "topic" "2026-10-12" 0 = Except.ok res ∧
      1 ≤ res.total_turns := by
  obtain ⟨res, h1, _, _, h4, _⟩ := startDiscussion_run env0 "Economic Analyst"
    ["Social Welfare Specialist", "Environmental Scientist"] "XX" "topic" "2026-10-12" 0
  exact ⟨res, h1, h4⟩

/-- C4 (amended): `start_discussion` performs no configuration validation at
entry.  With `max_rounds < 1` no error is ever raised: the debate loop is
skipped and a normal result with `debate_rounds = 1` is returned.  With an
empty roster an `IndexError` (from `self.expert_roles[0]`) does propagate,
but only during phase 2 — after the introduction turn was already appended
to the transcript, not before any state transition. -/
theorem C4_no_entry_validation (env : ℕ → String) (cc topic today : String) (mr : ℕ) :
    (∃ st, startDiscussion env [] cc topic today mr = Except.error st ∧
      st.transcripts.length = 1) ∧
    (∀ (r : String) (rs : List String), ∃ res,
      startDiscussion env (r :: rs) cc topic today mr = Except.ok res ∧
      1 ≤ res.debate_rounds ∧ res.debate_rounds ≤ max 1 mr) := by
  constructor
  · exact ⟨_, rfl, rfl⟩
  · intro r rs
    obtain ⟨res, h1, _, _, _, h5, h6⟩ := startDiscussion_run env r rs cc topic today mr
    exact ⟨res, h1, h5, h6⟩
